/-
Verification of the stock-database data-access layer (stock_db.py).

The development shallowly embeds the program: Python values flowing through
the store are modelled by `PyVal`; the `Stock` record, the connection state
(`DBState`, holding the committed table and the connection's current view),
the CRUD operations, the SQL statement texts built by `insert`/`update`, the
connection configuration issued by the constructor, and a small-step
interleaving semantics for threads running `transaction` blocks guarded by
the store's mutual-exclusion lock.
-/
import Mathlib

set_option autoImplicit false

/-- A dynamically typed Python value as it appears in this program:
strings (the stock symbol, SQL texts), integers and floats (quantity, price). -/
inductive PyVal where
  | str (s : String)
  | int (n : Int)
  | real (q : Rat)
deriving DecidableEq

/-- The `Stock` record: `symbol`, `quantity`, `price` (class Stock). -/
structure Stock where
  symbol : PyVal
  quantity : PyVal
  price : PyVal
deriving DecidableEq

/-- `Stock.from_row`: `Stock(*row)`.  The constructor has defaults
`symbol=''`, `quantity=0`, `price=0.0`, so rows of fewer than three
fields fill the missing trailing arguments with the defaults; a row of
more than three fields is a TypeError (`none`). -/
def Stock.from_row : List PyVal → Option Stock
  | [] => some ⟨.str "", .int 0, .real 0⟩
  | [a] => some ⟨a, .int 0, .real 0⟩
  | [a, b] => some ⟨a, b, .real 0⟩
  | [a, b, c] => some ⟨a, b, c⟩
  | _ => none

/-- The `__dict__` of a `Stock` instance: its field names paired with their
values, in the interpreter's (deterministic) dict iteration order. -/
def Stock.fields (s : Stock) : List (String × PyVal) :=
  [("symbol", s.symbol), ("quantity", s.quantity), ("price", s.price)]

/-- State of the shared connection: the durable (committed) table and the
connection's current view, which includes writes of the open transaction.
Outside a transaction the two coincide. -/
structure DBState where
  committed : List Stock
  current : List Stock
deriving DecidableEq

/-- `StockDB.insert`: `INSERT INTO stocks(...) VALUES (?,?,?)` appends the
record to the connection's view of the table. -/
def StockDB.insert (db : DBState) (stock : Stock) : DBState :=
  { db with current := db.current ++ [stock] }

/-- `StockDB.lookup`: `SELECT * FROM stocks WHERE symbol = ?`, `fetchone`,
and reconstruction of the first matching row via `Stock.from_row`;
`none` when no row matches. -/
def StockDB.lookup (db : DBState) (symbol : PyVal) : Option Stock :=
  (db.current.find? fun r => r.symbol == symbol).bind fun r =>
    Stock.from_row [r.symbol, r.quantity, r.price]

/-- `StockDB.update`: `UPDATE stocks SET symbol = ?, quantity = ?, price = ?
WHERE symbol = ?`, with every placeholder bound from the record; each row
whose symbol matches the record's symbol is overwritten with the record's
fields (the SET clause writes the same symbol the WHERE clause matched). -/
def StockDB.update (db : DBState) (stock : Stock) : DBState :=
  { db with current :=
      db.current.map fun r => if r.symbol == stock.symbol then stock else r }

/-- `self._connection.commit()`: the current view becomes durable. -/
def commitConn (db : DBState) : DBState :=
  { committed := db.current, current := db.current }

/-- `self._connection.rollback()`: the current view is reset to the
committed table. -/
def rollbackConn (db : DBState) : DBState :=
  { committed := db.committed, current := db.committed }

/-- Events the transaction wrapper issues on the connection. -/
inductive TxEv where
  | commit
  | rollback
deriving DecidableEq

/-- Outcome of running a transaction body: normal completion with the
resulting connection state, or a raised failure `e` together with the
connection state the body left behind. -/
inductive TxOutcome (ε : Type) where
  | ok (db : DBState)
  | raised (e : ε) (db : DBState)

/-- `StockDB.transaction` (the `@contextmanager` body, lock aside): run the
action; on normal completion commit, on a raised failure roll back and
re-raise the same failure.  The returned trace records which of
commit/rollback was issued. -/
def StockDB.transaction {ε : Type} (action : DBState → TxOutcome ε)
    (db : DBState) : TxOutcome ε × List TxEv :=
  match action db with
  | .ok db1 => (.ok (commitConn db1), [.commit])
  | .raised e db1 => (.raised e (rollbackConn db1), [.rollback])

/-- `','.join` over a list of SQL fragments. -/
def sqlJoin (l : List String) : String :=
  String.intercalate "," l

/-- Statement text built by `StockDB.insert`:
`"INSERT INTO stocks(...) VALUES (...)".format(keys, places)` where `keys`
joins the record's field names and `places` joins one `?` per field. -/
def insertSQL (fields : List (String × PyVal)) : String :=
  "INSERT INTO stocks(" ++ sqlJoin (fields.map Prod.fst) ++ ") VALUES (" ++
    sqlJoin (fields.map fun _ => "?") ++ ")"

/-- Bound parameters of the insert statement: the record's field values. -/
def insertParams (fields : List (String × PyVal)) : List PyVal :=
  fields.map Prod.snd

/-- Statement text built by `StockDB.update`:
`'UPDATE stocks SET ... WHERE symbol = ?'` with one `name = ?` assignment
joined per field name. -/
def updateSQL (fields : List (String × PyVal)) : String :=
  "UPDATE stocks SET " ++ sqlJoin (fields.map fun kv => kv.1 ++ " = ?") ++
    " WHERE symbol = ?"

/-- Bound parameters of the update statement: the field values followed by
the record's symbol for the WHERE clause. -/
def updateParams (fields : List (String × PyVal)) (symbol : PyVal) : List PyVal :=
  fields.map Prod.snd ++ [symbol]

/-- A call the constructor issues against the sqlite3 engine. -/
inductive EngineCall where
  | connect (database : String) (check_same_thread : Bool) (isolation_level : String)
  | pragma (stmt : String)
deriving DecidableEq

/-- `StockDB.__init__`: `sqlite3.connect('example.db', check_same_thread=False,
isolation_level='DEFERRED')` followed by `PRAGMA journal_mode = WAL`.
The backing file name is the fixed literal `'example.db'`; the constructor
accepts no path argument. -/
def StockDB.init : List EngineCall :=
  [EngineCall.connect "example.db" false "DEFERRED",
   EngineCall.pragma "PRAGMA journal_mode = WAL"]

/-- Modelled from the spec: `open(filePath)` "establishes the connection"
to the caller-supplied backing file path, configured for safe cross-thread
sharing of one connection object, deferred (manual) transaction control,
and write-ahead-log journaling. -/
def specOpenCalls (path : String) : List EngineCall :=
  [EngineCall.connect path false "DEFERRED",
   EngineCall.pragma "PRAGMA journal_mode = WAL"]

/-- One statement a transaction body runs against the store. -/
inductive WriteOp where
  | ins (s : Stock)
  | upd (s : Stock)
deriving DecidableEq

/-- Effect of one body statement on the connection. -/
def applyOp (db : DBState) : WriteOp → DBState
  | .ins s => StockDB.insert db s
  | .upd s => StockDB.update db s

/-- The program one thread runs inside `with db.transaction()`: the body's
statements in order, and whether the body raises after its last statement. -/
structure ThreadProg where
  ops : List WriteOp
  raises : Bool
deriving DecidableEq

/-- Control state of one thread executing `with db.transaction(): body`. -/
inductive TStatus where
  /-- Before `with self._lock` has acquired the lock. -/
  | start
  /-- Lock held, remaining body statements `rest` still to run. -/
  | running (rest : List WriteOp)
  /-- Lock held, commit (or rollback, when the body raised) already issued. -/
  | commitDone
  /-- Lock released; `raised` records whether the body's failure propagated. -/
  | done (raised : Bool)
deriving DecidableEq

/-- Whether a thread currently holds the store's lock (it is inside the
`with self._lock` block). -/
def TStatus.critical : TStatus → Bool
  | .running _ => true
  | .commitDone => true
  | _ => false

/-- Whether a thread's transaction has already committed (successfully
finished the commit call; rolled-back threads never enter this). -/
def TStatus.pastCommit : TStatus → Bool
  | .commitDone => true
  | .done false => true
  | _ => false

/-- Global state of `n` threads sharing one `StockDB`: the lock owner, the
connection state, each thread's control state, and the order in which
commits were issued (instrumentation). -/
structure CState (n : Nat) where
  lockOwner : Option (Fin n)
  db : DBState
  status : Fin n → TStatus
  commitLog : List (Fin n)

/-- One atomic micro-step of thread `t`: acquire the lock when free (block
otherwise), run the body's next statement, issue commit (or rollback when
the body raises), then release the lock.  Finished threads do nothing. -/
def step {n : Nat} (progs : Fin n → ThreadProg) (st : CState n) (t : Fin n) :
    CState n :=
  match st.status t with
  | .start =>
      match st.lockOwner with
      | none =>
          { st with lockOwner := some t,
                    status := Function.update st.status t (.running (progs t).ops) }
      | some _ => st
  | .running (op :: rest) =>
      { st with db := applyOp st.db op,
                status := Function.update st.status t (.running rest) }
  | .running [] =>
      if (progs t).raises then
        { st with db := rollbackConn st.db,
                  status := Function.update st.status t .commitDone }
      else
        { st with db := commitConn st.db,
                  status := Function.update st.status t .commitDone,
                  commitLog := st.commitLog ++ [t] }
  | .commitDone =>
      { st with lockOwner := none,
                status := Function.update st.status t (.done (progs t).raises) }
  | .done _ => st

/-- Run the micro-step semantics under a schedule (the interleaving chosen
by the thread scheduler). -/
def run {n : Nat} (progs : Fin n → ThreadProg) (st : CState n)
    (sched : List (Fin n)) : CState n :=
  sched.foldl (step progs) st

/-- Initial state: lock free, empty table, every thread before its
transaction. -/
def initState (n : Nat) : CState n :=
  ⟨none, ⟨[], []⟩, fun _ => .start, []⟩

/-- The thread programs of the mutual-exclusion scenario: thread `t`
inserts the record `stocks t` and completes normally. -/
def insProgs {n : Nat} (stocks : Fin n → Stock) : Fin n → ThreadProg :=
  fun t => ⟨[.ins (stocks t)], false⟩

/-- The store's lock discipline: a thread is inside its `with self._lock`
block exactly when it owns the lock. -/
def lockInv {n : Nat} (st : CState n) : Prop :=
  (∀ t, (st.status t).critical = true → st.lockOwner = some t) ∧
  (∀ t, st.lockOwner = some t → (st.status t).critical = true)

/-- Invariant of the scenario in which thread `t` runs
`with db.transaction(): db.insert(stocks t)`: the lock discipline holds,
the connection view is clean outside transactions, the lock's owner has
either not yet inserted, inserted but not committed, or committed, and
the committed table is exactly the inserts of the committed threads in
commit order. -/
structure InsInv {n : Nat} (stocks : Fin n → Stock) (st : CState n) : Prop where
  lock : lockInv st
  idle : st.lockOwner = none → st.db.current = st.db.committed
  owner : ∀ t, st.lockOwner = some t →
    (st.status t = .running [.ins (stocks t)] ∧
      st.db.current = st.db.committed) ∨
    (st.status t = .running [] ∧
      st.db.current = st.db.committed ++ [stocks t]) ∨
    (st.status t = .commitDone ∧ st.db.current = st.db.committed)
  table : st.db.committed = st.commitLog.map stocks
  logMem : ∀ t, t ∈ st.commitLog ↔ (st.status t).pastCommit = true
  logNodup : st.commitLog.Nodup
  shape : ∀ t, st.status t = .start ∨
    st.status t = .running [.ins (stocks t)] ∨ st.status t = .running [] ∨
    st.status t = .commitDone ∨ st.status t = .done false

/-! ## Helper lemmas -/

/-- Reconstructing a full three-column row never fails and returns the row's
fields verbatim. -/
theorem from_row_three (a b c : PyVal) :
    Stock.from_row [a, b, c] = some ⟨a, b, c⟩ := rfl

/-- A lookup misses exactly when no row of the connection's view matches. -/
theorem lookup_eq_none_iff (db : DBState) (sym : PyVal) :
    StockDB.lookup db sym = none ↔
      db.current.find? (fun r => r.symbol == sym) = none := by
  unfold StockDB.lookup
  cases hf : db.current.find? fun r => r.symbol == sym with
  | none => simp [hf]
  | some r => simp [hf, from_row_three]

/-- A lookup consults only the connection's current view, not the committed
table. -/
theorem lookup_depends_on_current (c1 c2 cur : List Stock) (sym : PyVal) :
    StockDB.lookup ⟨c1, cur⟩ sym = StockDB.lookup ⟨c2, cur⟩ sym := rfl

/-- An update leaves a row untouched when its symbol differs. -/
theorem update_row_of_ne (s r : Stock) (h : r.symbol ≠ s.symbol) :
    (if r.symbol == s.symbol then s else r) = r := by
  simp [h]

/-! ## Claims about the sequential operations -/

/-- C10: `Stock.from_row` applied to a row with fewer than three fields does
not fail: missing trailing fields take the defaults (empty-string symbol,
integer-zero quantity, float-zero price); it fails only on a row of more
than three fields. -/
theorem from_row_arity_defaults :
    (Stock.from_row [] = some ⟨.str "", .int 0, .real 0⟩) ∧
    (∀ a, Stock.from_row [a] = some ⟨a, .int 0, .real 0⟩) ∧
    (∀ a b, Stock.from_row [a, b] = some ⟨a, b, .real 0⟩) ∧
    (∀ a b c, Stock.from_row [a, b, c] = some ⟨a, b, c⟩) ∧
    (∀ row : List PyVal, (Stock.from_row row).isSome ↔ row.length ≤ 3) := by
  refine ⟨rfl, fun a => rfl, fun a b => rfl, fun a b c => rfl, fun row => ?_⟩
  rcases row with _ | ⟨a, _ | ⟨b, _ | ⟨c, _ | ⟨d, rest⟩⟩⟩⟩ <;>
    simp [Stock.from_row]

/-- Witness for C10 at concrete rows: a four-field row fails, a one-field
row succeeds with default quantity and price. -/
theorem from_row_arity_defaults_witness :
    ((Stock.from_row [.int 1, .int 2, .int 3, .int 4]).isSome ↔
      (4 : Nat) ≤ 3) ∧
    Stock.from_row [.str "IBM"] = some ⟨.str "IBM", .int 0, .real 0⟩ :=
  ⟨from_row_arity_defaults.2.2.2.2 _, from_row_arity_defaults.2.1 _⟩

/-- C8: an update leaves the column of symbols stored in the table
unchanged — it never adds a row, removes a row, or changes any row's key
(the SET clause writes the symbol the WHERE clause matched); the committed
table is untouched as well. -/
theorem update_preserves_symbol_column (db : DBState) (s : Stock) :
    (StockDB.update db s).current.map Stock.symbol =
      db.current.map Stock.symbol ∧
    (StockDB.update db s).committed = db.committed := by
  refine ⟨?_, rfl⟩
  show (db.current.map _).map _ = _
  induction db.current with
  | nil => rfl
  | cons r t ih =>
      simp only [List.map_cons, List.map_map] at ih ⊢
      refine congrArg₂ _ ?_ ih
      by_cases h : r.symbol = s.symbol
      · simp [h]
      · simp [h]

/-- C9: an update leaves every row whose symbol differs from the record's
symbol completely unchanged, in place. -/
theorem update_frames_other_rows (db : DBState) (s : Stock) (i : Nat)
    (h1 : i < db.current.length)
    (hne : (db.current.get ⟨i, h1⟩).symbol ≠ s.symbol) :
    ∀ h2 : i < (StockDB.update db s).current.length,
      (StockDB.update db s).current.get ⟨i, h2⟩ = db.current.get ⟨i, h1⟩ := by
  intro h2
  show (db.current.map _).get ⟨i, h2⟩ = _
  simp only [List.get_eq_getElem, List.getElem_map]
  exact update_row_of_ne s _ hne

/-- Witness for C9: updating "B" leaves the row keyed "A" in place. -/
theorem update_frames_other_rows_witness :
    ((0 : Nat) < (DBState.mk [] [⟨.str "A", .int 1, .real 2⟩]).current.length) ∧
    (StockDB.update ⟨[], [⟨.str "A", .int 1, .real 2⟩]⟩
        ⟨.str "B", .int 7, .real 9⟩).current.get ⟨0, by decide⟩ =
      (DBState.mk [] [⟨.str "A", .int 1, .real 2⟩]).current.get ⟨0, by decide⟩ :=
  ⟨by decide,
    update_frames_other_rows ⟨[], [⟨.str "A", .int 1, .real 2⟩]⟩
      ⟨.str "B", .int 7, .real 9⟩ 0 (by decide) (by decide) (by decide)⟩

/-- C5: updating a record whose key is absent from the table is a silent
no-op: the store state is unchanged (no error is surfaced — the modelled
update is total) and a lookup of that key still misses afterward. -/
theorem update_absent_key_noop (db : DBState) (s : Stock)
    (h : StockDB.lookup db s.symbol = none) :
    StockDB.update db s = db ∧
      StockDB.lookup (StockDB.update db s) s.symbol = none := by
  have hall := List.find?_eq_none.mp ((lookup_eq_none_iff db s.symbol).mp h)
  have hmap : (db.current.map fun r =>
      if r.symbol == s.symbol then s else r) = db.current := by
    conv_rhs => rw [← List.map_id db.current]
    refine List.map_congr_left fun r hr => ?_
    have : r.symbol ≠ s.symbol := by
      intro he
      exact hall r hr (by simp [he])
    simp [this]
  have hupd : StockDB.update db s = db := by
    cases db with
    | mk c cur => simp only [StockDB.update] at hmap ⊢; rw [hmap]
  exact ⟨hupd, by rw [hupd]; exact h⟩

/-- Witness for C5: updating "GOOG" against an empty table changes nothing
and "GOOG" still misses. -/
theorem update_absent_key_noop_witness :
    (StockDB.lookup ⟨[], []⟩ (PyVal.str "GOOG") = none) ∧
    StockDB.update ⟨[], []⟩ ⟨.str "GOOG", .int 5, .real 600⟩ = ⟨[], []⟩ ∧
    StockDB.lookup (StockDB.update ⟨[], []⟩ ⟨.str "GOOG", .int 5, .real 600⟩)
      (PyVal.str "GOOG") = none :=
  ⟨rfl,
    (update_absent_key_noop ⟨[], []⟩ ⟨.str "GOOG", .int 5, .real 600⟩ rfl).1,
    (update_absent_key_noop ⟨[], []⟩ ⟨.str "GOOG", .int 5, .real 600⟩ rfl).2⟩

/-- C2: inserting a fresh record inside a transaction that commits and then
looking its key up returns a record equal to the original in all three
fields (symbol, quantity, price). -/
theorem insert_lookup_roundtrip (db : DBState) (s : Stock)
    (h : StockDB.lookup db s.symbol = none) :
    ∃ db2,
      @StockDB.transaction Unit (fun d => TxOutcome.ok (StockDB.insert d s)) db =
        (TxOutcome.ok db2, [TxEv.commit]) ∧
      StockDB.lookup db2 s.symbol = some ⟨s.symbol, s.quantity, s.price⟩ := by
  refine ⟨commitConn (StockDB.insert db s), rfl, ?_⟩
  have hf := (lookup_eq_none_iff db s.symbol).mp h
  show ((db.current ++ [s]).find? fun r => r.symbol == s.symbol).bind _ = _
  rw [List.find?_append, hf]
  simp [List.find?, from_row_three]

/-- Witness for C2: the concrete scenario, inserting GOOG (5, 600.10) into
the empty store through a committed transaction and looking it up. -/
theorem insert_lookup_roundtrip_witness :
    (StockDB.lookup ⟨[], []⟩ (PyVal.str "GOOG") = none) ∧
    ∃ db2,
      @StockDB.transaction Unit
          (fun d => TxOutcome.ok
            (StockDB.insert d ⟨.str "GOOG", .int 5, .real (6001/10)⟩))
          ⟨[], []⟩ =
        (TxOutcome.ok db2, [TxEv.commit]) ∧
      StockDB.lookup db2 (PyVal.str "GOOG") =
        some ⟨.str "GOOG", .int 5, .real (6001/10)⟩ :=
  ⟨rfl, insert_lookup_roundtrip ⟨[], []⟩ ⟨.str "GOOG", .int 5, .real (6001/10)⟩ rfl⟩

/-- C1: `transaction` commits when the action completes normally; when the
action raises after performing an insert of a fresh key, it rolls back and
re-raises the same failure, and a lookup of the inserted key afterward
misses — the insert left no trace. -/
theorem transaction_commits_or_rolls_back {ε : Type} (db : DBState)
    (action : DBState → TxOutcome ε) (e : ε) (s : Stock)
    (hidle : db.current = db.committed) :
    (∀ db1, action db = TxOutcome.ok db1 →
      StockDB.transaction action db =
        (TxOutcome.ok (commitConn db1), [TxEv.commit])) ∧
    (action db = TxOutcome.raised e (StockDB.insert db s) →
      StockDB.lookup db s.symbol = none →
      ∃ db2,
        StockDB.transaction action db =
          (TxOutcome.raised e db2, [TxEv.rollback]) ∧
        StockDB.lookup db2 s.symbol = none) := by
  constructor
  · intro db1 hact
    simp [StockDB.transaction, hact]
  · intro hact hmiss
    refine ⟨rollbackConn (StockDB.insert db s), ?_, ?_⟩
    · simp [StockDB.transaction, hact]
    · show StockDB.lookup ⟨db.committed, db.committed⟩ s.symbol = none
      rw [lookup_depends_on_current db.committed db.current db.committed]
      rw [← hidle]
      exact hmiss

/-- Witness for C1: a body that inserts GOOG into the empty store and then
raises failure `0` is rolled back, the failure is re-raised, and GOOG is
absent afterward. -/
theorem transaction_commits_or_rolls_back_witness :
    ((DBState.mk [] []).current = (DBState.mk [] []).committed) ∧
    ∃ db2,
      StockDB.transaction
          (fun d => TxOutcome.raised (0 : Nat)
            (StockDB.insert d ⟨.str "GOOG", .int 5, .real (6001/10)⟩))
          ⟨[], []⟩ =
        (TxOutcome.raised 0 db2, [TxEv.rollback]) ∧
      StockDB.lookup db2 (PyVal.str "GOOG") = none :=
  ⟨rfl,
    (transaction_commits_or_rolls_back ⟨[], []⟩
      (fun d => TxOutcome.raised (0 : Nat)
        (StockDB.insert d ⟨.str "GOOG", .int 5, .real (6001/10)⟩))
      0 ⟨.str "GOOG", .int 5, .real (6001/10)⟩ rfl).2 rfl rfl⟩

/-- C7: for two records with the same field names, the insert and update
statement texts are identical and the field values appear only in the bound
parameter lists — the text never depends on the values. -/
theorem statement_text_value_independent
    (f1 f2 : List (String × PyVal)) (sym1 sym2 : PyVal)
    (h : f1.map Prod.fst = f2.map Prod.fst) :
    insertSQL f1 = insertSQL f2 ∧ updateSQL f1 = updateSQL f2 ∧
    insertParams f1 = f1.map Prod.snd ∧
    updateParams f1 sym1 = f1.map Prod.snd ++ [sym1] ∧
    updateParams f2 sym2 = f2.map Prod.snd ++ [sym2] := by
  have hplaces : ∀ f : List (String × PyVal),
      (f.map fun _ => "?") = (f.map Prod.fst).map fun _ => "?" := by
    intro f; rw [List.map_map]; rfl
  have hsets : ∀ f : List (String × PyVal),
      (f.map fun kv => kv.1 ++ " = ?") =
        (f.map Prod.fst).map fun k => k ++ " = ?" := by
    intro f; rw [List.map_map]; rfl
  refine ⟨?_, ?_, rfl, rfl, rfl⟩
  · unfold insertSQL
    rw [hplaces f1, hplaces f2, h]
  · unfold updateSQL
    rw [hsets f1, hsets f2, h]

/-- Witness for C7: two stocks with different values produce the same
insert and update statement texts. -/
theorem statement_text_value_independent_witness :
    ((Stock.fields ⟨.str "GOOG", .int 5, .real 600⟩).map Prod.fst =
      (Stock.fields ⟨.str "IBM", .int 7, .real 125⟩).map Prod.fst) ∧
    insertSQL (Stock.fields ⟨.str "GOOG", .int 5, .real 600⟩) =
      insertSQL (Stock.fields ⟨.str "IBM", .int 7, .real 125⟩) ∧
    updateSQL (Stock.fields ⟨.str "GOOG", .int 5, .real 600⟩) =
      updateSQL (Stock.fields ⟨.str "IBM", .int 7, .real 125⟩) :=
  ⟨rfl,
    (statement_text_value_independent
      (Stock.fields ⟨.str "GOOG", .int 5, .real 600⟩)
      (Stock.fields ⟨.str "IBM", .int 7, .real 125⟩)
      (.str "GOOG") (.str "IBM") rfl).1,
    (statement_text_value_independent
      (Stock.fields ⟨.str "GOOG", .int 5, .real 600⟩)
      (Stock.fields ⟨.str "IBM", .int 7, .real 125⟩)
      (.str "GOOG") (.str "IBM") rfl).2.1⟩

/-- C6 counterexample: the constructor takes no path and always opens the
fixed file `example.db`; a caller asking for the backing file `t.db`
cannot obtain it — the calls issued differ from an open of `t.db`. -/
theorem open_path_not_caller_determined :
    StockDB.init ≠ specOpenCalls "t.db" := by
  decide

/-- C6 (amended): the constructor takes no path argument and always issues
exactly the calls of the spec's `open` applied to the fixed path
`example.db`: connect with cross-thread sharing enabled
(`check_same_thread=False`) and deferred (manual) transaction control,
then enable write-ahead-log journaling. -/
theorem open_config_fixed_file :
    StockDB.init = specOpenCalls "example.db" ∧
    ∀ path : String, (specOpenCalls path).head? =
      some (EngineCall.connect path false "DEFERRED") :=
  ⟨rfl, fun _ => rfl⟩

/-! ## Step characterizations of the concurrent semantics -/

/-- A thread before its transaction acquires the free lock and enters the
body. -/
theorem step_at_start_free {n : Nat} (progs : Fin n → ThreadProg)
    (st : CState n) (t : Fin n) (hst : st.status t = .start)
    (hlo : st.lockOwner = none) :
    step progs st t =
      { st with lockOwner := some t,
                status := Function.update st.status t (.running (progs t).ops) } := by
  simp [step, hst, hlo]

/-- A thread before its transaction blocks while the lock is held. -/
theorem step_at_start_busy {n : Nat} (progs : Fin n → ThreadProg)
    (st : CState n) (t u : Fin n) (hst : st.status t = .start)
    (hlo : st.lockOwner = some u) :
    step progs st t = st := by
  simp [step, hst, hlo]

/-- A thread with body statements left runs the next one. -/
theorem step_at_running_cons {n : Nat} (progs : Fin n → ThreadProg)
    (st : CState n) (t : Fin n) (op : WriteOp) (rest : List WriteOp)
    (hst : st.status t = .running (op :: rest)) :
    step progs st t =
      { st with db := applyOp st.db op,
                status := Function.update st.status t (.running rest) } := by
  simp [step, hst]

/-- A thread whose body finished normally issues the commit. -/
theorem step_at_running_nil_commits {n : Nat} (progs : Fin n → ThreadProg)
    (st : CState n) (t : Fin n) (hst : st.status t = .running [])
    (hr : (progs t).raises = false) :
    step progs st t =
      { st with db := commitConn st.db,
                status := Function.update st.status t .commitDone,
                commitLog := st.commitLog ++ [t] } := by
  simp [step, hst, hr]

/-- A thread whose body raises issues the rollback instead. -/
theorem step_at_running_nil_raises {n : Nat} (progs : Fin n → ThreadProg)
    (st : CState n) (t : Fin n) (hst : st.status t = .running [])
    (hr : (progs t).raises = true) :
    step progs st t =
      { st with db := rollbackConn st.db,
                status := Function.update st.status t .commitDone } := by
  simp [step, hst, hr]

/-- After commit or rollback the thread releases the lock and finishes. -/
theorem step_at_commitDone {n : Nat} (progs : Fin n → ThreadProg)
    (st : CState n) (t : Fin n) (hst : st.status t = .commitDone) :
    step progs st t =
      { st with lockOwner := none,
                status := Function.update st.status t (.done (progs t).raises) } := by
  simp [step, hst]

/-- A finished thread does nothing. -/
theorem step_at_done {n : Nat} (progs : Fin n → ThreadProg)
    (st : CState n) (t : Fin n) (b : Bool) (hst : st.status t = .done b) :
    step progs st t = st := by
  simp [step, hst]

/-- Unfolding one scheduled step. -/
theorem run_cons {n : Nat} (progs : Fin n → ThreadProg) (st : CState n)
    (t : Fin n) (sched : List (Fin n)) :
    run progs st (t :: sched) = run progs (step progs st t) sched := rfl

/-- Splitting a schedule. -/
theorem run_append {n : Nat} (progs : Fin n → ThreadProg) (st : CState n)
    (s1 s2 : List (Fin n)) :
    run progs st (s1 ++ s2) = run progs (run progs st s1) s2 :=
  List.foldl_append _ _ _ _

/-! ## The lock invariant -/

/-- Acquiring the free lock and entering a critical status keeps the lock
discipline. -/
theorem lockInv_acquire {n : Nat} (st : CState n) (t : Fin n) (s2 : TStatus)
    (hlo : st.lockOwner = none) (hcrit2 : s2.critical = true)
    (h : lockInv st) :
    lockInv ⟨some t, st.db, Function.update st.status t s2, st.commitLog⟩ := by
  obtain ⟨h1, _⟩ := h
  constructor
  · intro u hu
    dsimp only at hu ⊢
    by_cases htu : u = t
    · subst htu; rfl
    · rw [Function.update_noteq htu] at hu
      rw [h1 u hu] at hlo
      exact absurd hlo (by simp)
  · intro u hu
    dsimp only at hu ⊢
    have htu : u = t := (Option.some.inj hu).symm
    subst htu
    rw [Function.update_same]
    exact hcrit2

/-- A step by the lock's owner that stays in a critical status keeps the
lock discipline, whatever it does to the connection and the log. -/
theorem lockInv_owner_stays {n : Nat} (st : CState n) (t : Fin n)
    (db2 : DBState) (log2 : List (Fin n)) (s2 : TStatus)
    (hlock : st.lockOwner = some t) (hcrit2 : s2.critical = true)
    (h : lockInv st) :
    lockInv ⟨st.lockOwner, db2, Function.update st.status t s2, log2⟩ := by
  obtain ⟨h1, _⟩ := h
  constructor
  · intro u hu
    dsimp only at hu ⊢
    by_cases htu : u = t
    · subst htu; exact hlock
    · rw [Function.update_noteq htu] at hu
      exact h1 u hu
  · intro u hu
    dsimp only at hu ⊢
    rw [hlock] at hu
    have htu : u = t := (Option.some.inj hu).symm
    subst htu
    rw [Function.update_same]
    exact hcrit2

/-- Releasing the lock while leaving its owner's critical section keeps the
lock discipline. -/
theorem lockInv_release {n : Nat} (st : CState n) (t : Fin n) (s2 : TStatus)
    (hlock : st.lockOwner = some t) (hcrit2 : s2.critical = false)
    (h : lockInv st) :
    lockInv ⟨none, st.db, Function.update st.status t s2, st.commitLog⟩ := by
  obtain ⟨h1, _⟩ := h
  constructor
  · intro u hu
    dsimp only at hu ⊢
    exfalso
    by_cases htu : u = t
    · subst htu
      rw [Function.update_same] at hu
      rw [hcrit2] at hu
      exact Bool.false_ne_true hu
    · rw [Function.update_noteq htu] at hu
      have := h1 u hu
      rw [hlock] at this
      exact htu (Option.some.inj this).symm
  · intro u hu
    dsimp only at hu
    exact absurd hu (by simp)

/-- Every micro-step preserves the lock discipline. -/
theorem lockInv_step {n : Nat} (progs : Fin n → ThreadProg) (st : CState n)
    (t : Fin n) (h : lockInv st) : lockInv (step progs st t) := by
  cases hst : st.status t with
  | start =>
      cases hlo : st.lockOwner with
      | none =>
          rw [step_at_start_free progs st t hst hlo]
          exact lockInv_acquire st t _ hlo rfl h
      | some u =>
          rw [step_at_start_busy progs st t u hst hlo]
          exact h
  | running rest =>
      have hcrit : (st.status t).critical = true := by
        rw [hst]; cases rest <;> rfl
      have hlock : st.lockOwner = some t := h.1 t hcrit
      cases rest with
      | cons op rest2 =>
          rw [step_at_running_cons progs st t op rest2 hst]
          exact lockInv_owner_stays st t _ _ _ hlock rfl h
      | nil =>
          cases hr : (progs t).raises with
          | false =>
              rw [step_at_running_nil_commits progs st t hst hr]
              exact lockInv_owner_stays st t _ _ _ hlock rfl h
          | true =>
              rw [step_at_running_nil_raises progs st t hst hr]
              exact lockInv_owner_stays st t _ _ _ hlock rfl h
  | commitDone =>
      have hlock : st.lockOwner = some t := h.1 t (by rw [hst]; rfl)
      rw [step_at_commitDone progs st t hst]
      exact lockInv_release st t _ hlock rfl h
  | done b =>
      rw [step_at_done progs st t b hst]
      exact h

/-- The lock discipline holds after any schedule. -/
theorem lockInv_run {n : Nat} (progs : Fin n → ThreadProg) (st : CState n)
    (sched : List (Fin n)) (h : lockInv st) :
    lockInv (run progs st sched) := by
  induction sched generalizing st with
  | nil => exact h
  | cons t rest ih => exact ih (step progs st t) (lockInv_step progs st t h)

/-- The initial state satisfies the lock discipline. -/
theorem lockInv_initState (n : Nat) : lockInv (initState n) := by
  constructor
  · intro t ht
    simp [initState, TStatus.critical] at ht
  · intro t ht
    simp [initState] at ht

/-- A thread that owns the lock with `l` body statements left finishes its
transaction and releases the lock after `l.length + 2` consecutive steps of
its own. -/
theorem run_solo_completes {n : Nat} (progs : Fin n → ThreadProg) (t : Fin n) :
    ∀ (l : List WriteOp) (st : CState n),
      st.status t = .running l → st.lockOwner = some t →
      (run progs st (List.replicate (l.length + 2) t)).status t =
          .done (progs t).raises ∧
        (run progs st (List.replicate (l.length + 2) t)).lockOwner = none := by
  intro l
  induction l with
  | nil =>
      intro st hst hlo
      have h1s : (step progs st t).status t = .commitDone := by
        cases hr : (progs t).raises with
        | false =>
            rw [step_at_running_nil_commits progs st t hst hr]
            exact Function.update_same _ _ _
        | true =>
            rw [step_at_running_nil_raises progs st t hst hr]
            exact Function.update_same _ _ _
      have h1o : (step progs st t).lockOwner = some t := by
        cases hr : (progs t).raises with
        | false => rw [step_at_running_nil_commits progs st t hst hr]; exact hlo
        | true => rw [step_at_running_nil_raises progs st t hst hr]; exact hlo
      have h2 := step_at_commitDone progs (step progs st t) t h1s
      constructor
      · show (step progs (step progs st t) t).status t = _
        rw [h2]
        exact Function.update_same _ _ _
      · show (step progs (step progs st t) t).lockOwner = none
        rw [h2]
  | cons op rest ih =>
      intro st hst hlo
      have h1 := step_at_running_cons progs st t op rest hst
      have h1s : (step progs st t).status t = .running rest := by
        rw [h1]; exact Function.update_same _ _ _
      have h1o : (step progs st t).lockOwner = some t := by
        rw [h1]; exact hlo
      exact ih (step progs st t) h1s h1o

/-! ## Claims about the transaction lock -/

/-- C3: the lock is released on every exit path of `transaction`: a
finished thread — whether its body committed or raised — never holds the
lock, and from any reachable state in which the lock is free a thread that
has not yet started can acquire it and complete normally in finitely many
steps of its own, ending with the lock free again. -/
theorem lock_released_every_exit {n : Nat} (progs : Fin n → ThreadProg)
    (sched : List (Fin n)) :
    (∀ t b, (run progs (initState n) sched).status t = TStatus.done b →
      (run progs (initState n) sched).lockOwner ≠ some t) ∧
    (∀ t, (run progs (initState n) sched).lockOwner = none →
      (run progs (initState n) sched).status t = TStatus.start →
      (progs t).raises = false →
      (run progs (run progs (initState n) sched)
          (List.replicate ((progs t).ops.length + 3) t)).status t =
        TStatus.done false ∧
      (run progs (run progs (initState n) sched)
          (List.replicate ((progs t).ops.length + 3) t)).lockOwner = none) := by
  have hinv := lockInv_run progs (initState n) sched (lockInv_initState n)
  constructor
  · intro t b hdone hsome
    have hcrit := hinv.2 t hsome
    rw [hdone] at hcrit
    simp [TStatus.critical] at hcrit
  · intro t hnone hstart hr
    have h1 := step_at_start_free progs (run progs (initState n) sched) t
      hstart hnone
    have h1s : (step progs (run progs (initState n) sched) t).status t =
        .running (progs t).ops := by
      rw [h1]; exact Function.update_same _ _ _
    have h1o : (step progs (run progs (initState n) sched) t).lockOwner =
        some t := by
      rw [h1]
    have h2 := run_solo_completes progs t (progs t).ops
      (step progs (run progs (initState n) sched) t) h1s h1o
    rw [hr] at h2
    exact h2

/-- The initial state satisfies the insert-scenario invariant. -/
theorem insInv_initState {n : Nat} (stocks : Fin n → Stock) :
    InsInv stocks (initState n) := by
  refine ⟨lockInv_initState n, fun _ => rfl, ?_, rfl, ?_, List.nodup_nil, ?_⟩
  · intro t ht
    simp [initState] at ht
  · intro t
    simp [initState, TStatus.pastCommit]
  · intro t
    exact Or.inl rfl

/-- Every micro-step preserves the insert-scenario invariant. -/
theorem insInv_step {n : Nat} (stocks : Fin n → Stock) (st : CState n)
    (t : Fin n) (h : InsInv stocks st) :
    InsInv stocks (step (insProgs stocks) st t) := by
  have hlockInv := lockInv_step (insProgs stocks) st t h.lock
  rcases h.shape t with hst | hst | hst | hst | hst
  · -- status t = start: acquire when the lock is free, else block
    cases hlo : st.lockOwner with
    | none =>
        rw [step_at_start_free (insProgs stocks) st t hst hlo] at hlockInv ⊢
        refine ⟨hlockInv, ?_, ?_, h.table, ?_, h.logNodup, ?_⟩
        · intro hno
          exact Option.noConfusion hno
        · intro u hu
          dsimp only at hu ⊢
          have hut : u = t := (Option.some.inj hu).symm
          subst hut
          left
          rw [Function.update_same]
          exact ⟨rfl, h.idle hlo⟩
        · intro u
          dsimp only
          by_cases hut : u = t
          · subst hut
            rw [Function.update_same, h.logMem u, hst]
            simp [TStatus.pastCommit, insProgs]
          · rw [Function.update_noteq hut]
            exact h.logMem u
        · intro u
          dsimp only
          by_cases hut : u = t
          · subst hut
            right; left
            rw [Function.update_same]
            rfl
          · rw [Function.update_noteq hut]
            exact h.shape u
    | some w =>
        rw [step_at_start_busy (insProgs stocks) st t w hst hlo]
        exact h
  · -- status t = running [.ins (stocks t)]: perform the insert
    have hlock : st.lockOwner = some t := h.lock.1 t (by rw [hst]; rfl)
    have hcur : st.db.current = st.db.committed := by
      rcases h.owner t hlock with ⟨_, hc⟩ | ⟨hc, _⟩ | ⟨hc, _⟩
      · exact hc
      · rw [hst] at hc; simp at hc
      · rw [hst] at hc; simp at hc
    rw [step_at_running_cons (insProgs stocks) st t (.ins (stocks t)) [] hst]
      at hlockInv ⊢
    refine ⟨hlockInv, ?_, ?_, ?_, ?_, h.logNodup, ?_⟩
    · intro hno
      dsimp only at hno
      rw [hlock] at hno
      exact Option.noConfusion hno
    · intro u hu
      dsimp only at hu ⊢
      rw [hlock] at hu
      have hut : u = t := (Option.some.inj hu).symm
      subst hut
      right; left
      rw [Function.update_same]
      refine ⟨rfl, ?_⟩
      show st.db.current ++ [stocks u] = st.db.committed ++ [stocks u]
      rw [hcur]
    · dsimp only
      exact h.table
    · intro u
      dsimp only
      by_cases hut : u = t
      · subst hut
        rw [Function.update_same, h.logMem u, hst]
        simp [TStatus.pastCommit]
      · rw [Function.update_noteq hut]
        exact h.logMem u
    · intro u
      dsimp only
      by_cases hut : u = t
      · subst hut
        right; right; left
        rw [Function.update_same]
      · rw [Function.update_noteq hut]
        exact h.shape u
  · -- status t = running []: issue the commit
    have hlock : st.lockOwner = some t := h.lock.1 t (by rw [hst]; rfl)
    have hcur : st.db.current = st.db.committed ++ [stocks t] := by
      rcases h.owner t hlock with ⟨hc, _⟩ | ⟨_, hc⟩ | ⟨hc, _⟩
      · rw [hst] at hc; simp at hc
      · exact hc
      · rw [hst] at hc; simp at hc
    have hnotin : t ∉ st.commitLog := by
      intro hin
      have hp := (h.logMem t).mp hin
      rw [hst] at hp
      simp [TStatus.pastCommit] at hp
    rw [step_at_running_nil_commits (insProgs stocks) st t hst rfl]
      at hlockInv ⊢
    refine ⟨hlockInv, ?_, ?_, ?_, ?_, ?_, ?_⟩
    · intro hno
      dsimp only at hno
      rw [hlock] at hno
      exact Option.noConfusion hno
    · intro u hu
      dsimp only at hu ⊢
      rw [hlock] at hu
      have hut : u = t := (Option.some.inj hu).symm
      subst hut
      right; right
      rw [Function.update_same]
      exact ⟨rfl, rfl⟩
    · show st.db.current = (st.commitLog ++ [t]).map stocks
      rw [hcur, h.table, List.map_append]
      rfl
    · intro u
      dsimp only
      by_cases hut : u = t
      · subst hut
        rw [Function.update_same]
        simp [TStatus.pastCommit]
      · rw [Function.update_noteq hut]
        rw [List.mem_append]
        simp only [List.mem_singleton]
        rw [h.logMem u]
        simp [hut]
    · show (st.commitLog ++ [t]).Nodup
      rw [List.nodup_append]
      refine ⟨h.logNodup, List.nodup_singleton t, ?_⟩
      intro u hu hmem
      rw [List.mem_singleton] at hmem
      subst hmem
      exact hnotin hu
    · intro u
      dsimp only
      by_cases hut : u = t
      · subst hut
        right; right; right; left
        rw [Function.update_same]
      · rw [Function.update_noteq hut]
        exact h.shape u
  · -- status t = commitDone: release the lock
    have hlock : st.lockOwner = some t := h.lock.1 t (by rw [hst]; rfl)
    have hcur : st.db.current = st.db.committed := by
      rcases h.owner t hlock with ⟨hc, _⟩ | ⟨hc, _⟩ | ⟨_, hc⟩
      · rw [hst] at hc; simp at hc
      · rw [hst] at hc; simp at hc
      · exact hc
    rw [step_at_commitDone (insProgs stocks) st t hst] at hlockInv ⊢
    refine ⟨hlockInv, ?_, ?_, h.table, ?_, h.logNodup, ?_⟩
    · intro _
      exact hcur
    · intro u hu
      exact Option.noConfusion hu
    · intro u
      dsimp only
      by_cases hut : u = t
      · subst hut
        rw [Function.update_same, h.logMem u, hst]
        simp [TStatus.pastCommit, insProgs]
      · rw [Function.update_noteq hut]
        exact h.logMem u
    · intro u
      dsimp only
      by_cases hut : u = t
      · subst hut
        right; right; right; right
        rw [Function.update_same]
        rfl
      · rw [Function.update_noteq hut]
        exact h.shape u
  · -- status t = done false: finished thread, no step
    rw [step_at_done (insProgs stocks) st t false hst]
    exact h

/-- The insert-scenario invariant holds after any schedule. -/
theorem insInv_run {n : Nat} (stocks : Fin n → Stock) (st : CState n)
    (sched : List (Fin n)) (h : InsInv stocks st) :
    InsInv stocks (run (insProgs stocks) st sched) := by
  induction sched generalizing st with
  | nil => exact h
  | cons t rest ih =>
      exact ih (step (insProgs stocks) st t) (insInv_step stocks st t h)

/-- A list counts exactly one element satisfying a predicate that holds for
a unique member of the list. -/
theorem countP_eq_one_of_unique {α : Type} (l : List α) (p : α → Bool)
    (t : α) (hmem : t ∈ l) (hnd : l.Nodup)
    (hp : ∀ x ∈ l, p x = true ↔ x = t) : l.countP p = 1 := by
  induction l with
  | nil => cases hmem
  | cons a l ih =>
      rw [List.countP_cons]
      rcases List.mem_cons.mp hmem with rfl | hmem2
      · have hpa : p t = true := (hp t (List.mem_cons_self t l)).mpr rfl
        have hnotin : t ∉ l := (List.nodup_cons.mp hnd).1
        have hzero : l.countP p = 0 := by
          rw [List.countP_eq_zero]
          intro x hx hpx
          rw [(hp x (List.mem_cons_of_mem t hx)).mp hpx] at hx
          exact hnotin hx
        simp [hzero, hpa]
      · have hna : a ≠ t := by
          rintro rfl
          exact (List.nodup_cons.mp hnd).1 hmem2
        have hpa : p a = false := by
          cases hq : p a
          · rfl
          · exact absurd ((hp a (List.mem_cons_self a l)).mp hq) hna
        rw [ih hmem2 (List.nodup_cons.mp hnd).2
          (fun x hx => hp x (List.mem_cons_of_mem a hx)), hpa]
        simp

/-- C4: when `n` threads run concurrent transactions each inserting a
record with a distinct key, any interleaving after which every thread has
completed leaves the table holding exactly the `n` inserted records — a
permutation of them, each present, each key exactly once, nothing missing
or corrupted — and at every point of the schedule at most one thread is
inside its transaction: no two transactions' statements interleave. -/
theorem concurrent_distinct_inserts_serialized {n : Nat}
    (stocks : Fin n → Stock)
    (hdist : ∀ t u : Fin n, t ≠ u → (stocks t).symbol ≠ (stocks u).symbol)
    (sched : List (Fin n))
    (hdone : ∀ t, (run (insProgs stocks) (initState n) sched).status t =
      TStatus.done false) :
    ((run (insProgs stocks) (initState n) sched).db.committed).Perm
        ((List.finRange n).map stocks) ∧
    (∀ t, stocks t ∈
      (run (insProgs stocks) (initState n) sched).db.committed) ∧
    (∀ t, ((run (insProgs stocks) (initState n) sched).db.committed.countP
        fun r => r.symbol == (stocks t).symbol) = 1) ∧
    (∀ pre suf, sched = pre ++ suf → ∀ t u : Fin n,
      ((run (insProgs stocks) (initState n) pre).status t).critical = true →
      ((run (insProgs stocks) (initState n) pre).status u).critical = true →
      t = u) := by
  have hinv := insInv_run stocks (initState n) sched (insInv_initState stocks)
  have hmemlog : ∀ t : Fin n,
      t ∈ (run (insProgs stocks) (initState n) sched).commitLog := by
    intro t
    rw [hinv.logMem t, hdone t]
    rfl
  have hperm : (run (insProgs stocks) (initState n) sched).commitLog.Perm
      (List.finRange n) := by
    refine (List.perm_ext_iff_of_nodup hinv.logNodup
      (List.nodup_finRange n)).mpr ?_
    intro a
    simp [hmemlog a, List.mem_finRange]
  have hcperm : ((run (insProgs stocks) (initState n) sched).db.committed).Perm
      ((List.finRange n).map stocks) := by
    rw [hinv.table]
    exact hperm.map stocks
  refine ⟨hcperm, ?_, ?_, ?_⟩
  · intro t
    exact hcperm.mem_iff.mpr (List.mem_map_of_mem stocks (List.mem_finRange t))
  · intro t
    rw [hcperm.countP_eq, List.countP_map]
    refine countP_eq_one_of_unique (List.finRange n) _ t (List.mem_finRange t)
      (List.nodup_finRange n) ?_
    intro u _
    constructor
    · intro hb
      by_contra hne
      exact hdist u t hne (by simpa using hb)
    · rintro rfl
      simp
  · intro pre suf hps t u hct hcu
    have hpre := insInv_run stocks (initState n) pre (insInv_initState stocks)
    have h1 := hpre.lock.1 t hct
    have h2 := hpre.lock.1 u hcu
    rw [h1] at h2
    exact Option.some.inj h2

/-- Witness for C4: two threads insert distinct keys "A" and "B" under a
genuinely interleaved schedule (thread 1's early steps are blocked on the
lock); both complete and both records are in the final table. -/
theorem concurrent_distinct_inserts_serialized_witness :
    (∀ t u : Fin 2, t ≠ u →
      ((![Stock.mk (PyVal.str "A") (PyVal.int 1) (PyVal.real 1),
          Stock.mk (PyVal.str "B") (PyVal.int 2) (PyVal.real 2)]) t).symbol ≠
      ((![Stock.mk (PyVal.str "A") (PyVal.int 1) (PyVal.real 1),
          Stock.mk (PyVal.str "B") (PyVal.int 2) (PyVal.real 2)]) u).symbol) ∧
    (∀ t, (run (insProgs
        (![Stock.mk (PyVal.str "A") (PyVal.int 1) (PyVal.real 1),
           Stock.mk (PyVal.str "B") (PyVal.int 2) (PyVal.real 2)]))
        (initState 2) [0, 1, 0, 1, 0, 1, 0, 1, 1, 1, 1]).status t =
      TStatus.done false) ∧
    (∀ t, (![Stock.mk (PyVal.str "A") (PyVal.int 1) (PyVal.real 1),
             Stock.mk (PyVal.str "B") (PyVal.int 2) (PyVal.real 2)]) t ∈
      (run (insProgs
        (![Stock.mk (PyVal.str "A") (PyVal.int 1) (PyVal.real 1),
           Stock.mk (PyVal.str "B") (PyVal.int 2) (PyVal.real 2)]))
        (initState 2) [0, 1, 0, 1, 0, 1, 0, 1, 1, 1, 1]).db.committed) :=
  ⟨by decide, by decide,
    (concurrent_distinct_inserts_serialized
      (![Stock.mk (PyVal.str "A") (PyVal.int 1) (PyVal.real 1),
         Stock.mk (PyVal.str "B") (PyVal.int 2) (PyVal.real 2)])
      (by decide) [0, 1, 0, 1, 0, 1, 0, 1, 1, 1, 1] (by decide)).2.1⟩

/-- Witness for C3: thread 0's body inserts "A" and raises; after its four
steps the lock is free and thread 1 (which has not started and completes
normally) can run its transaction to completion, leaving the lock free. -/
theorem lock_released_every_exit_witness :
    ((run (![ThreadProg.mk [WriteOp.ins ⟨PyVal.str "A", PyVal.int 1, PyVal.real 1⟩] true,
        ThreadProg.mk [WriteOp.ins ⟨PyVal.str "B", PyVal.int 2, PyVal.real 2⟩] false])
        (initState 2) [0, 0, 0, 0]).lockOwner = none) ∧
    ((run (![ThreadProg.mk [WriteOp.ins ⟨PyVal.str "A", PyVal.int 1, PyVal.real 1⟩] true,
        ThreadProg.mk [WriteOp.ins ⟨PyVal.str "B", PyVal.int 2, PyVal.real 2⟩] false])
        (initState 2) [0, 0, 0, 0]).status 1 = TStatus.start) ∧
    ((run (![ThreadProg.mk [WriteOp.ins ⟨PyVal.str "A", PyVal.int 1, PyVal.real 1⟩] true,
        ThreadProg.mk [WriteOp.ins ⟨PyVal.str "B", PyVal.int 2, PyVal.real 2⟩] false])
        (run (![ThreadProg.mk [WriteOp.ins ⟨PyVal.str "A", PyVal.int 1, PyVal.real 1⟩] true,
        ThreadProg.mk [WriteOp.ins ⟨PyVal.str "B", PyVal.int 2, PyVal.real 2⟩] false])
          (initState 2) [0, 0, 0, 0])
        (List.replicate
          (((![ThreadProg.mk [WriteOp.ins ⟨PyVal.str "A", PyVal.int 1, PyVal.real 1⟩] true,
        ThreadProg.mk [WriteOp.ins ⟨PyVal.str "B", PyVal.int 2, PyVal.real 2⟩] false]) 1).ops.length + 3)
          1)).status 1 = TStatus.done false) :=
  ⟨rfl, rfl,
    ((lock_released_every_exit
        (![ThreadProg.mk [WriteOp.ins ⟨PyVal.str "A", PyVal.int 1, PyVal.real 1⟩] true,
        ThreadProg.mk [WriteOp.ins ⟨PyVal.str "B", PyVal.int 2, PyVal.real 2⟩] false])
        [0, 0, 0, 0]).2 1 rfl rfl rfl).1⟩
